import Mathlib

/-!
Verification of the obsidian-parser repository: a shallow embedding of its
wiki-link resolution engine (src/toLinkBuilder.ts, bundled in dist/index.cjs),
its media resolution engine (remarkObsidianMedia.ts), the media optimization
pipeline (processMedia.ts) and the vault orchestrator (processFolder.ts),
together with theorems settling the specification claims about them.

Modelling conventions:
- JavaScript strings are Lean `String`s (sequences of `Char`); the sources only
  ever slice at ASCII boundaries, so code-unit versus code-point slicing does
  not matter for the properties proved here.
- JavaScript objects used as string dictionaries are association lists
  `List (String × String)` (`List.lookup` is the unique-key object read).
- JavaScript truthiness on strings (`if (s)`) is the test `s ≠ ""`; truthiness
  on possibly-undefined values is `Option` emptiness combined with that test.
- All definitions are structurally recursive so that every concrete instance
  evaluates inside the kernel (`decide` / `rfl`).
- Node's `path` module is modelled with POSIX separators.
-/

namespace ObsidianParser

/-! ## POSIX path helpers (node:path as used by the sources) -/

/-- Characters after the last `/` of a character list (`foldl` resets at each
separator), the core of node's `path.basename` and `path.parse(..).base`. -/
def afterLastSlash (l : List Char) : List Char :=
  l.foldl (fun acc c => if c == '/' then [] else acc ++ [c]) []

/-- Remove trailing `/` characters, as node's path functions do before
extracting the final component. -/
def dropTrailingSlashes (l : List Char) : List Char :=
  (l.reverse.dropWhile (fun c => c == '/')).reverse

/-- node `path.basename(p)` (POSIX): final path component, trailing slashes
ignored. -/
def basename (s : String) : String :=
  String.mk (afterLastSlash (dropTrailingSlashes s.toList))

/-- Index (from the front) of the last `.` in a base name, if any. -/
def lastDotIdx (b : List Char) : Option Nat :=
  match b.reverse.findIdx? (fun c => c == '.') with
  | none => none
  | some r => some (b.length - 1 - r)

/-- node `path.parse(base).name` on a path-free base name: the base with its
extension removed; a leading dot (hidden files) and the special base `..`
carry no extension. -/
def parseNameList (b : List Char) : List Char :=
  match lastDotIdx b with
  | none => b
  | some 0 => b
  | some i => if b == ['.', '.'] then b else b.take i

/-- `getFileName` from src/lib/utility.ts (dist/index.cjs lines 174-177):
`path.parse(filePath).name`, i.e. strip directory and extension. -/
def getFileName (filePath : String) : String :=
  String.mk (parseNameList (afterLastSlash (dropTrailingSlashes filePath.toList)))

/-- Backward scan of node's POSIX `path.dirname`: position of the separator
ending the directory part (never position 0), skipping the trailing run. -/
def dirGo (l : List Char) : Nat → Bool → Option Nat
  | 0, _ => none
  | i + 1, matched =>
    if l.getD (i + 1) ' ' == '/' then
      if matched then dirGo l i matched else some (i + 1)
    else dirGo l i false

/-- node `path.dirname(p)` (POSIX), transcribed from node's implementation. -/
def dirname (s : String) : String :=
  let l := s.toList
  if l.isEmpty then "." else
  let hasRoot := l.getD 0 ' ' == '/'
  match dirGo l (l.length - 1) true with
  | none => if hasRoot then "/" else "."
  | some e => if hasRoot && e == 1 then "//" else String.mk (l.take e)

/-- Simplified model of node `path.join(a, b)`: concatenation with a
separator.  The sources join already-clean segments, and no claim inspects a
joined output path, so dot-segment normalization is not modelled. -/
def joinPath (a b : String) : String :=
  a ++ "/" ++ b

/-- JS `s.replace(/\\/g, "/")`: every backslash becomes a forward slash. -/
def normalizeSeparators (s : String) : String :=
  String.mk (s.toList.map (fun c => if c == '\\' then '/' else c))

/-- JS `s.toLowerCase()` (ASCII-faithful). -/
def jsToLower (s : String) : String :=
  String.mk (s.toList.map Char.toLower)

/-- JS `s.replace(/\/+$/, "")` as applied to the configured domain. -/
def stripTrailingSlashesStr (s : String) : String :=
  String.mk (dropTrailingSlashes s.toList)

/-- JS `s.startsWith("/")`. -/
def startsWithSlash (s : String) : Bool :=
  match s.toList with
  | '/' :: _ => true
  | _ => false

/-- JS `s.slice(n)` (drop the first `n` characters). -/
def strDrop (s : String) (n : Nat) : String :=
  String.mk (s.toList.drop n)

/-- Join a list of strings with a separator (JS `parts.join(sep)`). -/
def joinWith (sep : String) : List String → String
  | [] => ""
  | [x] => x
  | x :: y :: xs => x ++ sep ++ joinWith sep (y :: xs)

/-! ## Wiki-link classification (src/toLinkBuilder.ts, dist lines 13097-13161) -/

/-- Raw parsed `[[value|alias]]` token handed to `toLink` by
remark-obsidian-link.  The alias is absent when no `|` was written. -/
structure WikiLink where
  value : String
  aliasOpt : Option String
deriving DecidableEq

/-- The five-variant resolved link (the `obsidianLink` object shapes built by
`wikiToObsidian`). -/
inductive ObsidianLink where
  | page (page : String) (aliasOpt : Option String)
  | pageHeader (page header : String) (aliasOpt : Option String)
  | pageBlock (page block : String) (aliasOpt : Option String)
  | header (header : String) (aliasOpt : Option String)
  | block (block : String) (aliasOpt : Option String)
deriving DecidableEq

/-- The alias carried by any variant. -/
def ObsidianLink.aliasOf : ObsidianLink → Option String
  | .page _ a => a
  | .pageHeader _ _ a => a
  | .pageBlock _ _ a => a
  | .header _ a => a
  | .block _ a => a

/-- The page name of the three page-bearing variants. -/
def ObsidianLink.pageName? : ObsidianLink → Option String
  | .page p _ => p
  | .pageHeader p _ _ => p
  | .pageBlock p _ _ => p
  | .header _ _ => none
  | .block _ _ => none

/-- JS `if (alias) obj.alias = alias`: the alias is attached only when it is a
non-empty (truthy) string. -/
def truthyAlias : Option String → Option String
  | some a => if a == "" then none else some a
  | none => none

/-- `Regex.BlockOnly = /^#\^.+/` — `.` does not match a newline. -/
def testBlockOnly (s : String) : Bool :=
  match s.toList with
  | '#' :: '^' :: c :: _ => c != '\n'
  | _ => false

/-- `Regex.HeaderOnly = /^#[^\^]+/` — the negated class also matches a
newline. -/
def testHeaderOnly (s : String) : Bool :=
  match s.toList with
  | '#' :: c :: _ => c != '^'
  | _ => false

/-- Scan for `/.+#\^.+/`: some `#^` preceded and followed by a non-newline
character (the dots of the unanchored pattern). -/
def hasPB : List Char → Bool
  | [] => false
  | p :: rest =>
    (match rest with
     | '#' :: '^' :: c :: _ => p != '\n' && c != '\n'
     | _ => false) || hasPB rest

/-- `Regex.PageAndBlock = /.+#\^.+/`. -/
def testPageAndBlock (s : String) : Bool :=
  hasPB s.toList

/-- Scan for `/.+#[^\^]+/`: some `#` preceded by a non-newline character and
followed by a non-`^` character. -/
def hasPH : List Char → Bool
  | [] => false
  | p :: rest =>
    (match rest with
     | '#' :: c :: _ => p != '\n' && c != '^'
     | _ => false) || hasPH rest

/-- `Regex.PageAndHeader = /.+#[^\^]+/`. -/
def testPageAndHeader (s : String) : Bool :=
  hasPH s.toList

/-- JS `value.split("#")` on the character level. -/
def splitOnHash : List Char → List (List Char)
  | [] => [[]]
  | '#' :: rest => [] :: splitOnHash rest
  | c :: rest =>
    match splitOnHash rest with
    | [] => [[c]]
    | h :: t => (c :: h) :: t

/-- JS `value.split("#^")` on the character level (left-to-right,
non-overlapping). -/
def splitOnHashCaret : List Char → List (List Char)
  | '#' :: '^' :: rest => [] :: splitOnHashCaret rest
  | c :: rest =>
    match splitOnHashCaret rest with
    | [] => [[c]]
    | h :: t => (c :: h) :: t
  | [] => [[]]

/-- `wikiToObsidian` (dist lines 13097-13161): ordered regex dispatch into the
five variants; the split destructurings `[page, block]` / `[page, header]`
take the first two components. -/
def wikiToObsidian (w : WikiLink) : ObsidianLink :=
  let v := w.value
  if testBlockOnly v then
    .block (strDrop v 2) (truthyAlias w.aliasOpt)
  else if testHeaderOnly v then
    .header (strDrop v 1) (truthyAlias w.aliasOpt)
  else if testPageAndBlock v then
    let parts := (splitOnHashCaret v.toList).map String.mk
    .pageBlock (parts.getD 0 "") (parts.getD 1 "") (truthyAlias w.aliasOpt)
  else if testPageAndHeader v then
    let parts := (splitOnHash v.toList).map String.mk
    .pageHeader (parts.getD 0 "") (parts.getD 1 "") (truthyAlias w.aliasOpt)
  else
    .page v (truthyAlias w.aliasOpt)

/-- `toMdastValue` (dist lines 13079-13096): JS-truthy alias wins, otherwise
the per-variant display text. -/
def toMdastValue (ol : ObsidianLink) : String :=
  let a := (ol.aliasOf).getD ""
  if a != "" then a
  else
    match ol with
    | .page p _ => p
    | .pageHeader p h _ => p ++ "#" ++ h
    | .pageBlock p _ _ => p
    | .header h _ => "#" ++ h
    | .block b _ => "#^" ++ b

/-- `toMdastUri` (dist lines 13065-13078). -/
def toMdastUri (ol : ObsidianLink) (toSlugF : String → String) (pre : String) : String :=
  match ol with
  | .page p _ => pre ++ "/" ++ toSlugF p
  | .pageHeader p h _ => pre ++ "/" ++ toSlugF p ++ "#" ++ toSlugF h
  | .pageBlock p _ _ => pre ++ "/" ++ toSlugF p
  | .header h _ => "#" ++ toSlugF h
  | .block _ _ => ""

/-- Result of `toLink`: either an mdast link object `{value, uri}` or a bare
string (rendered as plain text). -/
inductive MdastLinkResult where
  | hyperlink (value uri : String)
  | plain (value : String)
deriving DecidableEq

/-- `toLinkBuilder` (dist lines 13036-13058): the three page-bearing variants
pass through the visibility gate against the name-only allow set; header-only
links always become hyperlinks; block-only links always degrade to their
display text. -/
def toLinkBuilder (filePathAllowSet : List String) (toSlugF : String → String)
    (pre : String) (w : WikiLink) : MdastLinkResult :=
  let ol := wikiToObsidian w
  match ol.pageName? with
  | some p =>
    let pageNameAllowSet := filePathAllowSet.map getFileName
    if pageNameAllowSet.contains p then
      .hyperlink (toMdastValue ol) (toMdastUri ol toSlugF pre)
    else
      .plain (toMdastValue ol)
  | none =>
    match ol with
    | .header _ _ => .hyperlink (toMdastValue ol) (toMdastUri ol toSlugF pre)
    | _ => .plain (toMdastValue ol)

/-- Occurrence of `pat` as a contiguous run anywhere in the list. -/
def containsSubList (pat : List Char) : List Char → Bool
  | [] => pat.isEmpty
  | c :: rest => pat.isPrefixOf (c :: rest) || containsSubList pat rest

/-- Substring containment (JS `s.includes(pat)`). -/
def containsStr (s pat : String) : Bool :=
  containsSubList pat.toList s.toList

/-- Split at the first occurrence only: the part left of the first `pat` and
everything right of it. -/
def splitFirstStr (s pat : String) : String × String :=
  match (if pat == "#^" then splitOnHashCaret s.toList else splitOnHash s.toList).map String.mk with
  | [] => (s, "")
  | x :: rest => (x, joinWith pat rest)

/-- Modelled from the claim wording for the classification steps (spec §4.1 as
restated by the claim): steps 3 and 4 test bare substring containment of
`#^` / `#` and cut at the first occurrence, keeping everything to its right.
Aliases play no role in classification, so none is attached. -/
def specClassifyWikiValue (s : String) : ObsidianLink :=
  if testBlockOnly s then .block (strDrop s 2) none
  else if testHeaderOnly s then .header (strDrop s 1) none
  else if containsStr s "#^" then
    .pageBlock (splitFirstStr s "#^").1 (splitFirstStr s "#^").2 none
  else if containsStr s "#" then
    .pageHeader (splitFirstStr s "#").1 (splitFirstStr s "#").2 none
  else .page s none

/-! ## Media data model (processMedia.ts) -/

/-- One generated (or passed-through) size/format variant of a media file
(the entries of `MediaFileData.sizes`). -/
structure SizeInfo where
  width : Nat
  height : Nat
  format : String
  outputPath : String
  publicPath : String
  absolutePublicPath : Option String
  size : Nat
deriving DecidableEq

/-- `sharp(..).metadata()` fields the pipeline reads (each may be absent). -/
structure ImgMeta where
  width : Option Nat
  height : Option Nat
  format : Option String
deriving DecidableEq

/-- Source-file metadata stored on a catalog entry. -/
structure MediaMeta where
  width : Option Nat
  height : Option Nat
  format : Option String
  size : Option Nat
deriving DecidableEq

/-- `MediaFileData` from processMedia.ts: one catalog entry per discovered
media file.  `sizes` is the JS object mapping a size label to its list of
format variants, modelled as an association list. -/
structure MediaFileData where
  originalPath : String
  fileName : String
  fileExt : String
  mimeType : String
  sizes : List (String × List SizeInfo)
  metadata : MediaMeta
deriving DecidableEq

/-- Object read `obj[key]` on an association list (unique keys; first match). -/
def assocGet {α : Type} (m : List (String × α)) (k : String) : Option α :=
  List.lookup k m

/-- Object write `obj[key] = v`: replace the binding if the key exists,
append it otherwise. -/
def assocSet {α : Type} (m : List (String × α)) (k : String) (v : α) :
    List (String × α) :=
  match m with
  | [] => [(k, v)]
  | (k0, v0) :: rest =>
    if k0 == k then (k, v) :: rest else (k0, v0) :: assocSet rest k v

/-! ## Media resolution engine (remarkObsidianMedia.ts, src/unnamed/part_006) -/

/-- The options/context of `remarkObsidianMedia` (defaults as in the source;
the unused `basePath` option is omitted). -/
structure MediaEngineCtx where
  mediaData : List MediaFileData := []
  mediaPathMap : List (String × String) := []
  defaultImage : String := "/placeholder/400/300"
  useAbsolutePaths : Bool := false
  preferredSize : String := "md"
deriving DecidableEq

/-- An mdast image node together with the `hProperties` the plugin attaches. -/
structure ImageNode where
  url : String
  alt : String
  title : String
  width : Option Nat := none
  height : Option Nat := none
  loading : Option String := none
  cssClass : String
deriving DecidableEq

/-- A node of the spliced replacement list: plain text or an image. -/
inductive MNode where
  | text (value : String)
  | image (img : ImageNode)
deriving DecidableEq

/-- JS truthy read `if (mediaPathMap[k])`: a hit only counts when the mapped
value is a non-empty string. -/
def truthyGet (m : List (String × String)) (k : String) : Option String :=
  match List.lookup k m with
  | some v => if v == "" then none else some v
  | none => none

/-- The `mediaByName` / `mediaByPath` lookup maps built once from `mediaData`
(later insertions override earlier ones, as with JS `Map.set`). -/
def buildIndexes (mediaData : List MediaFileData) :
    (String → Option MediaFileData) × (String → Option MediaFileData) :=
  mediaData.foldl
    (fun idx item =>
      let byName := fun k => if k == jsToLower item.fileName then some item else idx.1 k
      let byPath := fun k => if k == jsToLower item.originalPath then some item else idx.2 k
      let nameOnly := basename item.originalPath
      let byName2 :=
        if jsToLower nameOnly != jsToLower item.fileName then
          fun k => if k == jsToLower nameOnly then some item else byName k
        else byName
      (byName2, byPath))
    (fun _ => none, fun _ => none)

/-- Image node for a path-map hit (`class: "obsidian-media mapped"`). -/
def mappedImage (url name : String) : ImageNode :=
  { url := url, alt := name, title := name,
    loading := some "lazy", cssClass := "obsidian-media mapped" }

/-- `createDefaultImage` (part_006 lines 202-216): the 400x300 placeholder
marking the image as not found. -/
def createDefaultImage (defaultImage alt : String) : ImageNode :=
  { url := defaultImage, alt := alt, title := "Image not found: " ++ alt,
    width := some 400, height := some 300,
    cssClass := "obsidian-media placeholder" }

/-- The ordered path variations probed in `mediaPathMap` after an exact miss:
with leading slash, without leading slash, separators normalized, lowercased,
and basename only. -/
def pathVariations (mediaLink : String) : List String :=
  let withLeadingSlash := if startsWithSlash mediaLink then mediaLink else "/" ++ mediaLink
  let withoutLeadingSlash := if startsWithSlash mediaLink then strDrop mediaLink 1 else mediaLink
  let normalizedPath := normalizeSeparators mediaLink
  [withLeadingSlash, withoutLeadingSlash, normalizedPath,
   jsToLower normalizedPath, basename mediaLink]

/-- Catalog lookup fallback: by lowercased full path, then by lowercased
basename, then by lowercased path in the name index. -/
def catalogFind (mediaData : List MediaFileData) (mediaLink : String) :
    Option MediaFileData :=
  let idx := buildIndexes mediaData
  let normalizedPath := jsToLower mediaLink
  let normalizedName := jsToLower (basename mediaLink)
  (idx.2 normalizedPath).orElse fun _ =>
    (idx.1 normalizedName).orElse fun _ =>
      idx.1 normalizedPath

/-- `mediaItem.sizes[preferredSize] || sizes.md || sizes.sm || sizes.lg ||
sizes.original`: the first size bucket that is *present* wins — a present but
empty list is truthy in JS and stops the chain. -/
def sizeChain (item : MediaFileData) (preferredSize : String) :
    Option (List SizeInfo) :=
  (assocGet item.sizes preferredSize).orElse fun _ =>
    (assocGet item.sizes "md").orElse fun _ =>
      (assocGet item.sizes "sm").orElse fun _ =>
        (assocGet item.sizes "lg").orElse fun _ =>
          assocGet item.sizes "original"

/-- Image node for a catalog hit: `useAbsolutePaths && sizeInfo.absolutePublicPath`
chooses the absolute path only when that field is a truthy string. -/
def catalogImage (useAbsolutePaths : Bool) (preferredSize name : String)
    (v : SizeInfo) : ImageNode :=
  let url :=
    match v.absolutePublicPath with
    | some a => if useAbsolutePaths && a != "" then a else v.publicPath
    | none => v.publicPath
  { url := url, alt := name,
    title := name ++ " (" ++ toString v.width ++ "x" ++ toString v.height ++ ")",
    width := some v.width, height := some v.height,
    loading := some "lazy",
    cssClass := "obsidian-media size-" ++ preferredSize }

/-- The per-embed resolution chain of `remarkObsidianMedia` (part_006 lines
82-198): exact path-map hit, then path variations, then catalog lookup with
size preference, then the placeholder. -/
def resolveEmbed (ctx : MediaEngineCtx) (mediaLink : String) : ImageNode :=
  let mediaFileName := basename mediaLink
  match truthyGet ctx.mediaPathMap mediaLink with
  | some url => mappedImage url mediaFileName
  | none =>
    match (pathVariations mediaLink).findSome? (truthyGet ctx.mediaPathMap) with
    | some url => mappedImage url mediaFileName
    | none =>
      match catalogFind ctx.mediaData mediaLink with
      | some mediaItem =>
        match sizeChain mediaItem ctx.preferredSize with
        | some (sizeInfo :: _) =>
          catalogImage ctx.useAbsolutePaths ctx.preferredSize mediaFileName sizeInfo
        | some [] => createDefaultImage ctx.defaultImage mediaFileName
        | none => createDefaultImage ctx.defaultImage mediaFileName
      | none => createDefaultImage ctx.defaultImage mediaFileName

/-! ## Text-node splicing (the `visit` pass of remarkObsidianMedia)

The plugin finds every occurrence of `/!\[\[(.*?)\]\]/g` in a text node and
splices the node into text segments and image nodes.  The scan below models
`matchAll` of that pattern: matches are leftmost and non-overlapping, the lazy
group takes the shortest run up to the next `]]`, and `.` does not cross a
newline. -/

/-- A piece of the splice before resolution: a plain-text run or the inner
group of one `![[...]]` token. -/
inductive Chunk where
  | txt (t : List Char)
  | tok (inner : List Char)
deriving DecidableEq

/-- After an opening `![[`, find the lazy-shortest inner group followed by
`]]`; fails at a newline or at the end of input (the regex then has no match
starting at this opener). -/
def findCloseAux : List Char → Option (List Char × List Char)
  | [] => none
  | [_] => none
  | c1 :: c2 :: rest =>
    if c1 == ']' && c2 == ']' then some ([], rest)
    else if c1 == '\n' then none
    else (findCloseAux (c2 :: rest)).map (fun p => (c1 :: p.1, p.2))

/-- Emit the pending text run (JS pushes a text node only for a non-empty
slice). -/
def flushChunk (acc : List Char) : List Chunk :=
  if acc.isEmpty then [] else [Chunk.txt acc.reverse]

/-- Fuelled left-to-right scan splitting a text value into text runs and embed
tokens.  Every step consumes at least one character, so fuel equal to the
input length makes the fuel-exhaustion branch unreachable. -/
def tokenizeF : Nat → List Char → List Char → List Chunk
  | _, acc, [] => flushChunk acc
  | 0, acc, c :: rest => flushChunk ((c :: rest).reverse ++ acc)
  | fuel + 1, acc, c :: rest =>
    if c == '!' && rest.take 2 == ['[', '['] then
      match findCloseAux (rest.drop 2) with
      | some (inner, rest2) =>
        flushChunk acc ++ Chunk.tok inner :: tokenizeF fuel [] rest2
      | none => tokenizeF fuel (c :: acc) rest
    else tokenizeF fuel (c :: acc) rest

/-- Split a text-node value into its splice chunks. -/
def tokenize (s : String) : List Chunk :=
  tokenizeF s.toList.length [] s.toList

/-- Restore a chunk list to source text (tokens get their `![[` `]]` fence
back). -/
def rebuildChunks : List Chunk → List Char
  | [] => []
  | Chunk.txt t :: rest => t ++ rebuildChunks rest
  | Chunk.tok i :: rest => '!' :: '[' :: '[' :: (i ++ ']' :: ']' :: rebuildChunks rest)

/-- Does the value contain at least one embed token (JS
`matches.length === 0`)? -/
def hasEmbedTok (s : String) : Bool :=
  (tokenize s).any fun c =>
    match c with
    | Chunk.tok _ => true
    | Chunk.txt _ => false

/-- Resolution of one chunk into an mdast node. -/
def chunkToNode (ctx : MediaEngineCtx) : Chunk → MNode
  | Chunk.txt t => MNode.text (String.mk t)
  | Chunk.tok i => MNode.image (resolveEmbed ctx (String.mk i))

/-- The visit callback on one text node: `none` when there is no embed token
(the node is left unchanged), otherwise the ordered replacement node list. -/
def processTextValue (ctx : MediaEngineCtx) (s : String) : Option (List MNode) :=
  if hasEmbedTok s then some ((tokenize s).map (chunkToNode ctx)) else none

/-- Well-formedness of a splice: text runs are non-empty and no two text runs
are adjacent (every pair is separated by an image). -/
def wfChunks : List Chunk → Bool
  | [] => true
  | Chunk.tok _ :: rest => wfChunks rest
  | [Chunk.txt t] => !t.isEmpty
  | Chunk.txt t :: Chunk.tok i :: rest => !t.isEmpty && wfChunks (Chunk.tok i :: rest)
  | Chunk.txt _ :: Chunk.txt _ :: _ => false

/-- The image nodes of a splice, in order. -/
def imagesOf (nodes : List MNode) : List ImageNode :=
  nodes.filterMap fun n =>
    match n with
    | MNode.image i => some i
    | MNode.text _ => none

/-- The token inner values of a chunk list, in order. -/
def innersOf (chunks : List Chunk) : List (List Char) :=
  chunks.filterMap fun c =>
    match c with
    | Chunk.tok i => some i
    | Chunk.txt _ => none

/-! ## Media optimization pipeline (processMedia.ts, src/unnamed/part_005)

The pipeline's filesystem and sharp(1) effects are abstracted into oracles:
`metaO` is the outcome of `sharp(filePath).metadata()` and `encode suffix
format` the outcome of one `sharpInstance.toFile` attempt together with the
stat/metadata reads of the written file.  `skipExisting` is fixed to its
default `false`, under which `shouldSkipFile` returns `false` without
consulting the filesystem (part_005 lines 255-277). -/

/-- One target size spec (`{width, height, suffix}`). -/
structure SizeSpec where
  width : Option Nat
  height : Option Nat
  suffix : String
deriving DecidableEq

/-- One target encode format (the options object is irrelevant here). -/
structure FormatSpec where
  format : String
deriving DecidableEq

/-- Stat size and metadata of a successfully written variant file. -/
structure EncodeMeta where
  width : Option Nat
  height : Option Nat
  size : Nat
deriving DecidableEq

/-- The per-file inputs of `processMediaFile`. -/
structure MediaCtx where
  filePath : String
  relativePath : String
  fileName : String
  fileExt : String
  mediaOutputFolder : String
  mediaPathPrefix : String
  domain : Option String
  stats : Nat
deriving DecidableEq

/-- `getMimeType` (part_005 lines 489-505). -/
def getMimeType (ext : String) : String :=
  (List.lookup (jsToLower ext)
    [(".jpg", "image/jpeg"), (".jpeg", "image/jpeg"), (".png", "image/png"),
     (".gif", "image/gif"), (".webp", "image/webp"), (".avif", "image/avif"),
     (".svg", "image/svg+xml"), (".mp4", "video/mp4"),
     (".webm", "video/webm")]).getD "application/octet-stream"

/-- `/\.(jpg|jpeg|png|webp|avif|gif)$/i.test(fileExt)`. -/
def isImageExt (ext : String) : Bool :=
  [".jpg", ".jpeg", ".png", ".webp", ".avif", ".gif"].any
    (fun e => e.toList.isSuffixOf (jsToLower ext).toList)

/-- The `absolutePublicPath` attached when a domain is configured:
`domain.replace(/\/+$/, "") + publicPath`. -/
def absolutePublicPathOf (domain : Option String) (publicPath : String) :
    Option String :=
  domain.map (fun d => stripTrailingSlashesStr d ++ publicPath)

/-- One size/format attempt of the optimization loop: `none` when the attempt
is skipped (AVIF for SVG, or a format change at original size), otherwise the
encode outcome turned into a `SizeInfo` push. -/
def attemptVariant (ctx : MediaCtx) (md : ImgMeta) (sz : SizeSpec)
    (fmt : FormatSpec) (encode : String → String → Except String EncodeMeta) :
    Option (Except String SizeInfo) :=
  if jsToLower ctx.fileExt == ".svg" && fmt.format == "avif" then none
  else
    let dirStructure := dirname ctx.relativePath
    let outputDir := joinPath ctx.mediaOutputFolder dirStructure
    let outputFileName :=
      String.mk (parseNameList ctx.fileName.toList) ++
        (if sz.suffix != "original" then "-" ++ sz.suffix else "") ++
        "." ++ fmt.format
    let outputPath := joinPath outputDir outputFileName
    let publicPath :=
      normalizeSeparators
        (ctx.mediaPathPrefix ++ "/" ++ dirStructure ++ "/" ++ outputFileName)
    let absPP := absolutePublicPathOf ctx.domain publicPath
    if sz.suffix == "original" && some fmt.format != md.format then none
    else
      match encode sz.suffix fmt.format with
      | Except.error e => some (Except.error e)
      | Except.ok em =>
        some (Except.ok
          { width := em.width.getD 0, height := em.height.getD 0,
            format := fmt.format, outputPath := outputPath,
            publicPath := publicPath, absolutePublicPath := absPP,
            size := em.size })

/-- The inner format loop for one size bucket: pushes succeed in order until
the first raised error, which aborts the loop keeping the pushes made so far
(the single try/catch sits outside all the loops). -/
def runFormatsCode (ctx : MediaCtx) (md : ImgMeta) (sz : SizeSpec)
    (encode : String → String → Except String EncodeMeta) :
    List FormatSpec → List SizeInfo × Option String
  | [] => ([], none)
  | fmt :: fmts =>
    match attemptVariant ctx md sz fmt encode with
    | none => runFormatsCode ctx md sz encode fmts
    | some (Except.ok v) =>
      let r := runFormatsCode ctx md sz encode fmts
      (v :: r.1, r.2)
    | some (Except.error e) => ([], some e)

/-- The outer size loop: each iteration first assigns an empty bucket
(`mediaFile.sizes[sizeName] = []`) and then runs the format loop; an error
stops the whole loop, keeping the buckets mutated so far. -/
def runSizesCode (ctx : MediaCtx) (md : ImgMeta)
    (encode : String → String → Except String EncodeMeta)
    (fmts : List FormatSpec) :
    List SizeSpec → List (String × List SizeInfo) →
    List (String × List SizeInfo) × Option String
  | [], acc => (acc, none)
  | sz :: szs, acc =>
    let r := runFormatsCode ctx md sz encode fmts
    let acc1 := assocSet acc sz.suffix r.1
    match r.2 with
    | some e => (acc1, some e)
    | none => runSizesCode ctx md encode fmts szs acc1

/-- The catch-block fallback variant: the untouched source file, referenced at
its original location (`outputPath: filePath`), with whatever metadata had
been read before the failure. -/
def fallbackOriginal (ctx : MediaCtx) (md : MediaMeta) : SizeInfo :=
  let publicPath :=
    normalizeSeparators
      (ctx.mediaPathPrefix ++ "/" ++ dirname ctx.relativePath ++ "/" ++ ctx.fileName)
  { width := md.width.getD 0, height := md.height.getD 0,
    format := strDrop ctx.fileExt 1, outputPath := ctx.filePath,
    publicPath := publicPath,
    absolutePublicPath := absolutePublicPathOf ctx.domain publicPath,
    size := ctx.stats }

/-- The copy-through branch for non-images or disabled optimization. -/
def copyThroughSizes (ctx : MediaCtx) : List (String × List SizeInfo) :=
  let dirStructure := dirname ctx.relativePath
  let outputDir := joinPath ctx.mediaOutputFolder dirStructure
  let outputPath := joinPath outputDir ctx.fileName
  let publicPath :=
    normalizeSeparators
      (ctx.mediaPathPrefix ++ "/" ++ dirStructure ++ "/" ++ ctx.fileName)
  [("original",
    [{ width := 0, height := 0, format := strDrop ctx.fileExt 1,
       outputPath := outputPath, publicPath := publicPath,
       absolutePublicPath := absolutePublicPathOf ctx.domain publicPath,
       size := ctx.stats }])]

/-- `processMediaFile` (part_005 lines 315-456): builds the catalog entry; a
single try/catch wraps the whole optimization block, and on any raised error
the entry keeps the buckets filled so far and gains an `original` bucket
pointing at the untouched source file. -/
def processMediaFileModel (ctx : MediaCtx) (optimizeImages : Bool)
    (imageSizes : List SizeSpec) (imageFormats : List FormatSpec)
    (metaO : Except String ImgMeta)
    (encode : String → String → Except String EncodeMeta) : MediaFileData :=
  let isImage := isImageExt ctx.fileExt
  let base : MediaFileData :=
    { originalPath := ctx.relativePath, fileName := ctx.fileName,
      fileExt := strDrop ctx.fileExt 1, mimeType := getMimeType ctx.fileExt,
      sizes := [],
      metadata := { width := none, height := none, format := none,
                    size := some ctx.stats } }
  if optimizeImages && isImage then
    match metaO with
    | Except.error _ =>
      { base with sizes := assocSet [] "original" [fallbackOriginal ctx base.metadata] }
    | Except.ok m =>
      let md : MediaMeta :=
        { width := m.width, height := m.height, format := m.format,
          size := some ctx.stats }
      let r := runSizesCode ctx m encode imageFormats imageSizes []
      match r.2 with
      | some _ =>
        { base with metadata := md,
                    sizes := assocSet r.1 "original" [fallbackOriginal ctx md] }
      | none => { base with metadata := md, sizes := r.1 }
  else
    { base with sizes := copyThroughSizes ctx }

/-- Whether the optimization block of `processMediaFile` raises (and catches)
an error for the given oracles. -/
def optimizationFails (ctx : MediaCtx) (imageSizes : List SizeSpec)
    (imageFormats : List FormatSpec) (metaO : Except String ImgMeta)
    (encode : String → String → Except String EncodeMeta) : Bool :=
  match metaO with
  | Except.error _ => true
  | Except.ok m => (runSizesCode ctx m encode imageFormats imageSizes []).2.isSome

/-- The per-file loop of `processMedia` (part_005 lines 136-164): every file
contributes its catalog entry and the loop continues regardless of per-file
optimization failures. -/
def processMediaModel (files : List MediaCtx) (optimizeImages : Bool)
    (imageSizes : List SizeSpec) (imageFormats : List FormatSpec)
    (metaO : MediaCtx → Except String ImgMeta)
    (encode : MediaCtx → String → String → Except String EncodeMeta) :
    List MediaFileData :=
  files.map fun f =>
    processMediaFileModel f optimizeImages imageSizes imageFormats (metaO f) (encode f)

/-- Modelled from the claim wording (spec §7, "caught per variant-generation
attempt"): each failing size/format attempt is caught individually and the
loop continues with the next attempt; if any attempt failed, the entry also
gains the `original` fallback bucket. -/
def runFormatsPerAttemptClaim (ctx : MediaCtx) (md : ImgMeta) (sz : SizeSpec)
    (encode : String → String → Except String EncodeMeta) :
    List FormatSpec → List SizeInfo × Bool
  | [] => ([], false)
  | fmt :: fmts =>
    let r := runFormatsPerAttemptClaim ctx md sz encode fmts
    match attemptVariant ctx md sz fmt encode with
    | none => r
    | some (Except.ok v) => (v :: r.1, r.2)
    | some (Except.error _) => (r.1, true)

/-- Modelled from the claim wording: the outer size loop under per-attempt
catching never aborts. -/
def runSizesPerAttemptClaim (ctx : MediaCtx) (md : ImgMeta)
    (encode : String → String → Except String EncodeMeta)
    (fmts : List FormatSpec) :
    List SizeSpec → List (String × List SizeInfo) → Bool →
    List (String × List SizeInfo) × Bool
  | [], acc, err => (acc, err)
  | sz :: szs, acc, err =>
    let r := runFormatsPerAttemptClaim ctx md sz encode fmts
    runSizesPerAttemptClaim ctx md encode fmts szs
      (assocSet acc sz.suffix r.1) (err || r.2)

/-- Modelled from the claim wording: `processMediaFile` with errors caught per
variant-generation attempt. -/
def processMediaFilePerAttemptClaim (ctx : MediaCtx) (optimizeImages : Bool)
    (imageSizes : List SizeSpec) (imageFormats : List FormatSpec)
    (metaO : Except String ImgMeta)
    (encode : String → String → Except String EncodeMeta) : MediaFileData :=
  let isImage := isImageExt ctx.fileExt
  let base : MediaFileData :=
    { originalPath := ctx.relativePath, fileName := ctx.fileName,
      fileExt := strDrop ctx.fileExt 1, mimeType := getMimeType ctx.fileExt,
      sizes := [],
      metadata := { width := none, height := none, format := none,
                    size := some ctx.stats } }
  if optimizeImages && isImage then
    match metaO with
    | Except.error _ =>
      { base with sizes := assocSet [] "original" [fallbackOriginal ctx base.metadata] }
    | Except.ok m =>
      let md : MediaMeta :=
        { width := m.width, height := m.height, format := m.format,
          size := some ctx.stats }
      let r := runSizesPerAttemptClaim ctx m encode imageFormats imageSizes [] false
      if r.2 then
        { base with metadata := md,
                    sizes := assocSet r.1 "original" [fallbackOriginal ctx md] }
      else { base with metadata := md, sizes := r.1 }
  else
    { base with sizes := copyThroughSizes ctx }

/-! ## Vault orchestrator tail (processFolder.ts lines 143-157) -/

/-- A table-of-contents entry. -/
structure TocItem where
  title : String
  depth : Nat
  id : String
deriving DecidableEq

/-- The per-note output record.  `frontmatter` is opaque key-value data,
modelled as a blob.  The two underscore fields model the ad-hoc properties the
orchestrator may attach to the first page; `none` means the property is
absent. -/
structure FileData where
  fileName : String
  slug : String
  frontmatter : String
  firstParagraphText : String
  plain : String
  html : String
  toc : List TocItem
  originalFilePath : String
  mediaDataProp : Option (List MediaFileData)
  mediaPathMapProp : Option (List (String × String))
deriving DecidableEq

/-- The object literal pushed by the processing loop (processFolder.ts lines
118-130): it carries exactly the declared `FileData` fields and no media
properties. -/
def mkFileData (fileName slug frontmatter firstParagraphText plain html : String)
    (toc : List TocItem) (originalFilePath : String) : FileData :=
  { fileName := fileName, slug := slug, frontmatter := frontmatter,
    firstParagraphText := firstParagraphText, plain := plain, html := html,
    toc := toc, originalFilePath := originalFilePath,
    mediaDataProp := none, mediaPathMapProp := none }

/-- The final block of `processFolder` (lines 143-157): when media data is to
be included and both the page list and the catalog are non-empty, the first
page gains `_mediaData`, and `_mediaPathMap` as well when the path map is
non-empty; nothing else is touched. -/
def processFolderAttachMediaData (includeMediaData : Bool)
    (mediaData : List MediaFileData) (mediaPathMap : List (String × String))
    (pages : List FileData) : List FileData :=
  if includeMediaData && !pages.isEmpty && !mediaData.isEmpty then
    match pages with
    | [] => []
    | p :: rest =>
      let p1 := { p with mediaDataProp := some mediaData }
      let p2 :=
        if !mediaPathMap.isEmpty then { p1 with mediaPathMapProp := some mediaPathMap }
        else p1
      p2 :: rest
  else pages

/-! ## Theorems -/

/-- C1: for every wiki link classified as Page, PageHeader or PageBlock,
`toLinkBuilder` emits a Hyperlink (display text plus uri) if and only if the
link's page name is a member of the name-only allow set obtained by applying
`getFileName` to every path of the allow set, and otherwise emits PlainText
with the same display text; Header-only links always become Hyperlinks and
Block-only links always become PlainText, independently of the allow set. -/
theorem toLinkBuilder_visibility_gate (allow : List String)
    (toSlugF : String → String) (pre : String) (w : WikiLink) :
    (∀ p, (wikiToObsidian w).pageName? = some p →
      ((allow.map getFileName).contains p = true →
        toLinkBuilder allow toSlugF pre w =
          MdastLinkResult.hyperlink (toMdastValue (wikiToObsidian w))
            (toMdastUri (wikiToObsidian w) toSlugF pre)) ∧
      ((allow.map getFileName).contains p = false →
        toLinkBuilder allow toSlugF pre w =
          MdastLinkResult.plain (toMdastValue (wikiToObsidian w)))) ∧
    (∀ h a, wikiToObsidian w = ObsidianLink.header h a →
      toLinkBuilder allow toSlugF pre w =
        MdastLinkResult.hyperlink (toMdastValue (wikiToObsidian w))
          (toMdastUri (wikiToObsidian w) toSlugF pre)) ∧
    (∀ b a, wikiToObsidian w = ObsidianLink.block b a →
      toLinkBuilder allow toSlugF pre w =
        MdastLinkResult.plain (toMdastValue (wikiToObsidian w))) := by
  refine ⟨fun p hp => ⟨fun hmem => ?_, fun hmem => ?_⟩,
          fun h a hw => ?_, fun b a hw => ?_⟩
  · simp only [toLinkBuilder, hp, hmem, if_true]
  · simp only [toLinkBuilder, hp, hmem, if_false, Bool.false_eq_true]
  · simp only [toLinkBuilder, hw, ObsidianLink.pageName?]
  · simp only [toLinkBuilder, hw, ObsidianLink.pageName?]

/-- Witness for C1 at concrete inputs: a public page, a non-listed page, a
header-only link and a block-only link. -/
theorem toLinkBuilder_visibility_gate_witness :
    toLinkBuilder ["notes/Page.md"] id "/content" ⟨"Page", none⟩ =
      MdastLinkResult.hyperlink "Page" "/content/Page" ∧
    toLinkBuilder ["notes/Page.md"] id "/content" ⟨"Other", none⟩ =
      MdastLinkResult.plain "Other" ∧
    toLinkBuilder [] id "/content" ⟨"#hdr", none⟩ =
      MdastLinkResult.hyperlink "#hdr" "#hdr" ∧
    toLinkBuilder ["notes/Page.md"] id "/content" ⟨"#^blk", none⟩ =
      MdastLinkResult.plain "#^blk" := by
  refine ⟨?_, ?_, ?_, ?_⟩
  · exact ((toLinkBuilder_visibility_gate ["notes/Page.md"] id "/content"
      ⟨"Page", none⟩).1 "Page" (by decide)).1 (by decide)
  · exact ((toLinkBuilder_visibility_gate ["notes/Page.md"] id "/content"
      ⟨"Other", none⟩).1 "Other" (by decide)).2 (by decide)
  · exact (toLinkBuilder_visibility_gate [] id "/content"
      ⟨"#hdr", none⟩).2.1 "hdr" none (by decide)
  · exact (toLinkBuilder_visibility_gate ["notes/Page.md"] id "/content"
      ⟨"#^blk", none⟩).2.2 "blk" none (by decide)

/-- C2 (amended): classification is total and first-match ordered, but steps
3 and 4 are governed by the regexes `/.+#\^.+/` and `/.+#[^\^]+/` — which
require surrounding characters — rather than bare substring containment, and
the page/header/block payloads are the first two components of the JS split
(later components are discarded). -/
theorem wikiToObsidian_classification_total (s : String) (a : Option String) :
    (testBlockOnly s = true ∧
      wikiToObsidian ⟨s, a⟩ = ObsidianLink.block (strDrop s 2) (truthyAlias a)) ∨
    (testBlockOnly s = false ∧ testHeaderOnly s = true ∧
      wikiToObsidian ⟨s, a⟩ = ObsidianLink.header (strDrop s 1) (truthyAlias a)) ∨
    (testBlockOnly s = false ∧ testHeaderOnly s = false ∧
      testPageAndBlock s = true ∧
      wikiToObsidian ⟨s, a⟩ =
        ObsidianLink.pageBlock (((splitOnHashCaret s.toList).map String.mk).getD 0 "")
          (((splitOnHashCaret s.toList).map String.mk).getD 1 "") (truthyAlias a)) ∨
    (testBlockOnly s = false ∧ testHeaderOnly s = false ∧
      testPageAndBlock s = false ∧ testPageAndHeader s = true ∧
      wikiToObsidian ⟨s, a⟩ =
        ObsidianLink.pageHeader (((splitOnHash s.toList).map String.mk).getD 0 "")
          (((splitOnHash s.toList).map String.mk).getD 1 "") (truthyAlias a)) ∨
    (testBlockOnly s = false ∧ testHeaderOnly s = false ∧
      testPageAndBlock s = false ∧ testPageAndHeader s = false ∧
      wikiToObsidian ⟨s, a⟩ = ObsidianLink.page s (truthyAlias a)) := by
  by_cases h1 : testBlockOnly s = true
  · exact Or.inl ⟨h1, by simp only [wikiToObsidian, h1, if_true]⟩
  rw [Bool.not_eq_true] at h1
  by_cases h2 : testHeaderOnly s = true
  · exact Or.inr (Or.inl ⟨h1, h2, by
      simp only [wikiToObsidian, h1, h2, if_true, Bool.false_eq_true, if_false]⟩)
  rw [Bool.not_eq_true] at h2
  by_cases h3 : testPageAndBlock s = true
  · exact Or.inr (Or.inr (Or.inl ⟨h1, h2, h3, by
      simp only [wikiToObsidian, h1, h2, h3, if_true, Bool.false_eq_true, if_false]⟩))
  rw [Bool.not_eq_true] at h3
  by_cases h4 : testPageAndHeader s = true
  · exact Or.inr (Or.inr (Or.inr (Or.inl ⟨h1, h2, h3, h4, by
      simp only [wikiToObsidian, h1, h2, h3, h4, if_true, Bool.false_eq_true, if_false]⟩)))
  rw [Bool.not_eq_true] at h4
  exact Or.inr (Or.inr (Or.inr (Or.inr ⟨h1, h2, h3, h4, by
    simp only [wikiToObsidian, h1, h2, h3, h4, Bool.false_eq_true, if_false]⟩)))

/-- Counterexample to C2 as stated: on `"#"` the claim's containment-based
step 4 yields a PageHeader while the code classifies a Page, and on
`"a#b#c"` the claim's "part right of the first `#`" is `"b#c"` while the code
keeps only the second split component `"b"`. -/
theorem wikiToObsidian_claim_counterexample :
    specClassifyWikiValue "#" = ObsidianLink.pageHeader "" "" none ∧
    wikiToObsidian ⟨"#", none⟩ = ObsidianLink.page "#" none ∧
    specClassifyWikiValue "a#b#c" = ObsidianLink.pageHeader "a" "b#c" none ∧
    wikiToObsidian ⟨"a#b#c", none⟩ = ObsidianLink.pageHeader "a" "b" none ∧
    specClassifyWikiValue "#" ≠ wikiToObsidian ⟨"#", none⟩ ∧
    specClassifyWikiValue "a#b#c" ≠ wikiToObsidian ⟨"a#b#c", none⟩ := by
  decide

/-- C7: the uri of every resolved link: Page and PageBlock get
`prefix/slug(page)` (the block fragment is dropped), PageHeader additionally
gets `#slug(header)`, Header gets `#slug(header)` alone and Block gets the
empty string; in particular a PageHeader link whose page is allowed resolves
under prefix `/content` to `/content/slug(page)#slug(header)`. -/
theorem toMdastUri_spec (toSlugF : String → String) (pre : String) :
    (∀ p a, toMdastUri (ObsidianLink.page p a) toSlugF pre = pre ++ "/" ++ toSlugF p) ∧
    (∀ p h a, toMdastUri (ObsidianLink.pageHeader p h a) toSlugF pre =
      pre ++ "/" ++ toSlugF p ++ "#" ++ toSlugF h) ∧
    (∀ p b a, toMdastUri (ObsidianLink.pageBlock p b a) toSlugF pre =
      pre ++ "/" ++ toSlugF p) ∧
    (∀ h a, toMdastUri (ObsidianLink.header h a) toSlugF pre = "#" ++ toSlugF h) ∧
    (∀ b a, toMdastUri (ObsidianLink.block b a) toSlugF pre = "") ∧
    (∀ (allow : List String) (w : WikiLink) (p h : String),
      wikiToObsidian w = ObsidianLink.pageHeader p h none →
      (allow.map getFileName).contains p = true →
      toLinkBuilder allow toSlugF "/content" w =
        MdastLinkResult.hyperlink (p ++ "#" ++ h)
          ("/content/" ++ toSlugF p ++ "#" ++ toSlugF h)) := by
  refine ⟨fun p a => rfl, fun p h a => rfl, fun p b a => rfl,
          fun h a => rfl, fun b a => rfl, fun allow w p h hw hmem => ?_⟩
  simp only [toLinkBuilder, hw, ObsidianLink.pageName?, hmem, if_true,
    toMdastValue, toMdastUri, ObsidianLink.aliasOf, Option.getD_none]
  rfl

/-- Witness for C7's gated scenario at concrete inputs. -/
theorem toMdastUri_spec_witness :
    toLinkBuilder ["x/Page.md"] id "/content" ⟨"Page#Header", none⟩ =
      MdastLinkResult.hyperlink "Page#Header" "/content/Page#Header" := by
  have h := (toMdastUri_spec id "/content").2.2.2.2.2 ["x/Page.md"]
    ⟨"Page#Header", none⟩ "Page" "Header" (by decide) (by decide)
  exact h

/-- C8 (amended): a *non-empty* alias always becomes the display text
verbatim, regardless of variant; when the alias is absent — or the empty
string, which the code's JS truthiness test treats as absent — the display
text is the page name for Page and PageBlock (block id dropped),
`page#header` for PageHeader, `#header` for Header and `#^block` for
Block. -/
theorem toMdastValue_display (ol : ObsidianLink) :
    (∀ al, ol.aliasOf = some al → al ≠ "" → toMdastValue ol = al) ∧
    (ol.aliasOf = none ∨ ol.aliasOf = some "" →
      toMdastValue ol =
        match ol with
        | ObsidianLink.page p _ => p
        | ObsidianLink.pageHeader p h _ => p ++ "#" ++ h
        | ObsidianLink.pageBlock p _ _ => p
        | ObsidianLink.header h _ => "#" ++ h
        | ObsidianLink.block b _ => "#^" ++ b) := by
  constructor
  · intro al hal hne
    cases ol <;> simp only [ObsidianLink.aliasOf] at hal <;>
      simp only [toMdastValue, hal, Option.getD_some, bne_iff_ne, ne_eq, hne,
        not_false_iff, if_true, ObsidianLink.aliasOf]
  · intro hcase
    cases ol <;> simp only [ObsidianLink.aliasOf] at hcase <;>
      rcases hcase with h | h <;>
      simp only [toMdastValue, ObsidianLink.aliasOf, h, Option.getD_none,
        Option.getD_some, bne_self_eq_false, Bool.false_eq_true, if_false]

/-- Witness for C8 at concrete inputs: a non-empty alias wins on every
variant shape, and each alias-free display form. -/
theorem toMdastValue_display_witness :
    toMdastValue (ObsidianLink.pageBlock "P" "b1" (some "A")) = "A" ∧
    toMdastValue (ObsidianLink.page "P" none) = "P" ∧
    toMdastValue (ObsidianLink.pageHeader "P" "H" none) = "P#H" ∧
    toMdastValue (ObsidianLink.pageBlock "P" "b1" none) = "P" ∧
    toMdastValue (ObsidianLink.header "H" none) = "#H" ∧
    toMdastValue (ObsidianLink.block "b1" none) = "#^b1" := by
  refine ⟨?_, ?_, ?_, ?_, ?_, ?_⟩
  · exact (toMdastValue_display (ObsidianLink.pageBlock "P" "b1" (some "A"))).1
      "A" (by decide) (by decide)
  · exact (toMdastValue_display (ObsidianLink.page "P" none)).2 (Or.inl (by decide))
  · exact (toMdastValue_display (ObsidianLink.pageHeader "P" "H" none)).2 (Or.inl (by decide))
  · exact (toMdastValue_display (ObsidianLink.pageBlock "P" "b1" none)).2 (Or.inl (by decide))
  · exact (toMdastValue_display (ObsidianLink.header "H" none)).2 (Or.inl (by decide))
  · exact (toMdastValue_display (ObsidianLink.block "b1" none)).2 (Or.inl (by decide))

/-- Counterexample to C8 as stated: an empty-string alias is present on the
link, yet the display text is the page name, not the alias verbatim. -/
theorem toMdastValue_alias_counterexample :
    (ObsidianLink.page "P" (some "")).aliasOf = some "" ∧
    toMdastValue (ObsidianLink.page "P" (some "")) = "P" ∧
    toMdastValue (ObsidianLink.page "P" (some "")) ≠ "" := by
  decide

/-- C3: for every raw embed string the media resolution engine produces a
renderable image node (the embedding is total, mirroring the source's lack of
any throwing path), and whenever neither the path map (exact or by variation)
nor the catalog yields a match, the node is the placeholder: url is the
configured default, 400x300 presentation hints, alt text the basename of the
request, and a title marking the image as not found. -/
theorem resolveEmbed_total_and_placeholder (ctx : MediaEngineCtx) (link : String) :
    (∃ img : ImageNode, resolveEmbed ctx link = img) ∧
    (truthyGet ctx.mediaPathMap link = none →
      (pathVariations link).findSome? (truthyGet ctx.mediaPathMap) = none →
      catalogFind ctx.mediaData link = none →
      resolveEmbed ctx link = createDefaultImage ctx.defaultImage (basename link) ∧
      (resolveEmbed ctx link).url = ctx.defaultImage ∧
      (resolveEmbed ctx link).alt = basename link ∧
      (resolveEmbed ctx link).title = "Image not found: " ++ basename link ∧
      (resolveEmbed ctx link).width = some 400 ∧
      (resolveEmbed ctx link).height = some 300) := by
  refine ⟨⟨_, rfl⟩, fun h1 h2 h3 => ?_⟩
  have hdef : resolveEmbed ctx link = createDefaultImage ctx.defaultImage (basename link) := by
    simp only [resolveEmbed, h1, h2, h3]
  refine ⟨hdef, ?_, ?_, ?_, ?_, ?_⟩ <;> (rw [hdef]; rfl)

/-- Witness for C3: the spec scenario `![[missing.png]]` with empty media
data and path map, and a path-traversal-shaped request. -/
theorem resolveEmbed_total_and_placeholder_witness :
    resolveEmbed {} "missing.png" =
      createDefaultImage "/placeholder/400/300" "missing.png" ∧
    (resolveEmbed {} "missing.png").url = "/placeholder/400/300" ∧
    (resolveEmbed {} "missing.png").alt = "missing.png" ∧
    (resolveEmbed {} "..\\..\\etc/passwd.png").url = "/placeholder/400/300" := by
  refine ⟨?_, ?_, ?_, ?_⟩
  · exact ((resolveEmbed_total_and_placeholder {} "missing.png").2
      (by decide) (by decide) (by decide)).1
  · exact ((resolveEmbed_total_and_placeholder {} "missing.png").2
      (by decide) (by decide) (by decide)).2.1
  · exact ((resolveEmbed_total_and_placeholder {} "missing.png").2
      (by decide) (by decide) (by decide)).2.2.1
  · exact ((resolveEmbed_total_and_placeholder {} "..\\..\\etc/passwd.png").2
      (by decide) (by decide) (by decide)).2.1

/-- C4 (amended): on a catalog hit the size bucket is the first *present*
list in the preference order [preferredSize, "md", "sm", "lg", "original"] —
a present-but-empty list (truthy in JS) wins and then falls through to the
placeholder, so a later non-empty bucket is not consulted; within the
selected non-empty list the first entry is used, and its absolutePublicPath
is taken only when useAbsolutePaths is true and that field is set to a
non-empty string, else its publicPath. -/
theorem resolveEmbed_catalog_size_selection (ctx : MediaEngineCtx)
    (link : String) (item : MediaFileData) :
    truthyGet ctx.mediaPathMap link = none →
    (pathVariations link).findSome? (truthyGet ctx.mediaPathMap) = none →
    catalogFind ctx.mediaData link = some item →
    ((∀ v rest, sizeChain item ctx.preferredSize = some (v :: rest) →
        resolveEmbed ctx link =
          catalogImage ctx.useAbsolutePaths ctx.preferredSize (basename link) v ∧
        (resolveEmbed ctx link).url =
          (match v.absolutePublicPath with
           | some a => if ctx.useAbsolutePaths && a != "" then a else v.publicPath
           | none => v.publicPath)) ∧
     (sizeChain item ctx.preferredSize = some [] ∨
        sizeChain item ctx.preferredSize = none →
        resolveEmbed ctx link = createDefaultImage ctx.defaultImage (basename link))) := by
  intro h1 h2 h3
  constructor
  · intro v rest hc
    have hr : resolveEmbed ctx link =
        catalogImage ctx.useAbsolutePaths ctx.preferredSize (basename link) v := by
      simp only [resolveEmbed, h1, h2, h3, hc]
    exact ⟨hr, by rw [hr]; rfl⟩
  · intro hc
    rcases hc with hc | hc <;> simp only [resolveEmbed, h1, h2, h3, hc]

/-- Witness for C4: a catalog entry whose "md" bucket is non-empty resolves
to that bucket's first entry, and an entry with an empty preferred bucket
falls through to the placeholder. -/
theorem resolveEmbed_catalog_size_selection_witness :
    resolveEmbed
      { mediaData := [{ originalPath := "imgs/pic.png", fileName := "pic.png",
                        fileExt := "png", mimeType := "image/png",
                        sizes := [("md",
                          [{ width := 10, height := 5, format := "jpeg",
                             outputPath := "/o/pic-md.jpeg",
                             publicPath := "/media/imgs/pic-md.jpeg",
                             absolutePublicPath := none, size := 3 }])],
                        metadata := { width := none, height := none,
                                      format := none, size := none } }] }
      "pic.png" =
      catalogImage false "md" "pic.png"
        { width := 10, height := 5, format := "jpeg",
          outputPath := "/o/pic-md.jpeg",
          publicPath := "/media/imgs/pic-md.jpeg",
          absolutePublicPath := none, size := 3 } ∧
    resolveEmbed
      { mediaData := [{ originalPath := "imgs/pic.png", fileName := "pic.png",
                        fileExt := "png", mimeType := "image/png",
                        sizes := [("md", [])],
                        metadata := { width := none, height := none,
                                      format := none, size := none } }] }
      "pic.png" =
      createDefaultImage "/placeholder/400/300" "pic.png" := by
  constructor
  · have h := resolveEmbed_catalog_size_selection
      { mediaData := [{ originalPath := "imgs/pic.png", fileName := "pic.png",
                        fileExt := "png", mimeType := "image/png",
                        sizes := [("md",
                          [{ width := 10, height := 5, format := "jpeg",
                             outputPath := "/o/pic-md.jpeg",
                             publicPath := "/media/imgs/pic-md.jpeg",
                             absolutePublicPath := none, size := 3 }])],
                        metadata := { width := none, height := none,
                                      format := none, size := none } }] }
      "pic.png"
      { originalPath := "imgs/pic.png", fileName := "pic.png",
        fileExt := "png", mimeType := "image/png",
        sizes := [("md",
          [{ width := 10, height := 5, format := "jpeg",
             outputPath := "/o/pic-md.jpeg",
             publicPath := "/media/imgs/pic-md.jpeg",
             absolutePublicPath := none, size := 3 }])],
        metadata := { width := none, height := none,
                      format := none, size := none } }
      (by decide) (by decide) (by decide)
    exact (h.1 { width := 10, height := 5, format := "jpeg",
                 outputPath := "/o/pic-md.jpeg",
                 publicPath := "/media/imgs/pic-md.jpeg",
                 absolutePublicPath := none, size := 3 } [] (by decide)).1
  · have h := resolveEmbed_catalog_size_selection
      { mediaData := [{ originalPath := "imgs/pic.png", fileName := "pic.png",
                        fileExt := "png", mimeType := "image/png",
                        sizes := [("md", [])],
                        metadata := { width := none, height := none,
                                      format := none, size := none } }] }
      "pic.png"
      { originalPath := "imgs/pic.png", fileName := "pic.png",
        fileExt := "png", mimeType := "image/png",
        sizes := [("md", [])],
        metadata := { width := none, height := none,
                      format := none, size := none } }
      (by decide) (by decide) (by decide)
    exact h.2 (Or.inl (by decide))

/-- Counterexample to C4 as stated: the preferred "md" bucket exists but is
empty while the "sm" bucket is non-empty; the claim's "first non-empty list"
rule predicts the sm entry, yet the engine (whose JS `||` chain stops at the
truthy empty array) emits the placeholder. -/
theorem resolveEmbed_size_counterexample :
    (resolveEmbed
      { mediaData := [{ originalPath := "imgs/a.png", fileName := "a.png",
                        fileExt := "png", mimeType := "image/png",
                        sizes := [("md", []),
                                  ("sm",
                          [{ width := 7, height := 4, format := "jpeg",
                             outputPath := "/o/a-sm.jpeg",
                             publicPath := "/media/imgs/a-sm.jpeg",
                             absolutePublicPath := none, size := 2 }])],
                        metadata := { width := none, height := none,
                                      format := none, size := none } }],
        preferredSize := "md" }
      "a.png").url = "/placeholder/400/300" ∧
    (resolveEmbed
      { mediaData := [{ originalPath := "imgs/a.png", fileName := "a.png",
                        fileExt := "png", mimeType := "image/png",
                        sizes := [("md", []),
                                  ("sm",
                          [{ width := 7, height := 4, format := "jpeg",
                             outputPath := "/o/a-sm.jpeg",
                             publicPath := "/media/imgs/a-sm.jpeg",
                             absolutePublicPath := none, size := 2 }])],
                        metadata := { width := none, height := none,
                                      format := none, size := none } }],
        preferredSize := "md" }
      "a.png").url ≠ "/media/imgs/a-sm.jpeg" := by
  decide

/-- C5 (amended): an exact path-map key whose value is non-empty (JS-truthy)
is always used as the image url, regardless of the catalog; when the exact
probe yields no truthy value, the path variations — leading slash added,
leading slash removed, backslashes normalized, lowercased, basename-only —
are probed in that fixed order and the first truthy hit wins, still before
any catalog lookup. -/
theorem resolveEmbed_pathmap_precedence (ctx : MediaEngineCtx) (link : String) :
    (∀ u, List.lookup link ctx.mediaPathMap = some u → u ≠ "" →
      resolveEmbed ctx link = mappedImage u (basename link)) ∧
    (truthyGet ctx.mediaPathMap link = none →
      ∀ u, (pathVariations link).findSome? (truthyGet ctx.mediaPathMap) = some u →
        resolveEmbed ctx link = mappedImage u (basename link)) := by
  constructor
  · intro u hu hne
    have ht : truthyGet ctx.mediaPathMap link = some u := by
      simp only [truthyGet, hu]
      rw [if_neg (fun h => hne (by simpa using h))]
    simp only [resolveEmbed, ht]
  · intro h1 u h2
    simp only [resolveEmbed, h1, h2]

/-- Witness for C5: an exact hit wins over a conflicting catalog entry, and a
basename variation hit is used when the exact key misses. -/
theorem resolveEmbed_pathmap_precedence_witness :
    resolveEmbed
      { mediaPathMap := [("imgs/a.png", "/m/direct.jpg")],
        mediaData := [{ originalPath := "imgs/a.png", fileName := "a.png",
                        fileExt := "png", mimeType := "image/png",
                        sizes := [("md",
                          [{ width := 1, height := 1, format := "jpeg",
                             outputPath := "/o/a-md.jpeg",
                             publicPath := "/media/imgs/a-md.jpeg",
                             absolutePublicPath := none, size := 1 }])],
                        metadata := { width := none, height := none,
                                      format := none, size := none } }] }
      "imgs/a.png" = mappedImage "/m/direct.jpg" "a.png" ∧
    resolveEmbed { mediaPathMap := [("b.png", "/m/b.webp")] } "sub/b.png" =
      mappedImage "/m/b.webp" "b.png" := by
  constructor
  · exact (resolveEmbed_pathmap_precedence _ "imgs/a.png").1 "/m/direct.jpg"
      (by decide) (by decide)
  · exact (resolveEmbed_pathmap_precedence _ "sub/b.png").2 (by decide)
      "/m/b.webp" (by decide)

/-- Counterexample to C5 as stated: the path map contains an exact key match
for the raw embed string, but its value is the empty string (JS-falsy), so
the engine ignores it and resolves through the catalog instead of using the
mapped value. -/
theorem resolveEmbed_pathmap_counterexample :
    List.lookup "a.png"
      [("a.png", "")] = some "" ∧
    (resolveEmbed
      { mediaPathMap := [("a.png", "")],
        mediaData := [{ originalPath := "imgs/a.png", fileName := "a.png",
                        fileExt := "png", mimeType := "image/png",
                        sizes := [("md",
                          [{ width := 1, height := 1, format := "jpeg",
                             outputPath := "/o/a-md.jpeg",
                             publicPath := "/media/imgs/a-md.jpeg",
                             absolutePublicPath := none, size := 1 }])],
                        metadata := { width := none, height := none,
                                      format := none, size := none } }] }
      "a.png").url = "/media/imgs/a-md.jpeg" ∧
    (resolveEmbed
      { mediaPathMap := [("a.png", "")],
        mediaData := [{ originalPath := "imgs/a.png", fileName := "a.png",
                        fileExt := "png", mimeType := "image/png",
                        sizes := [("md",
                          [{ width := 1, height := 1, format := "jpeg",
                             outputPath := "/o/a-md.jpeg",
                             publicPath := "/media/imgs/a-md.jpeg",
                             absolutePublicPath := none, size := 1 }])],
                        metadata := { width := none, height := none,
                                      format := none, size := none } }] }
      "a.png").url ≠ "" := by
  decide

theorem rebuild_flush (acc : List Char) :
    rebuildChunks (flushChunk acc) = acc.reverse := by
  cases acc with
  | nil => simp [flushChunk, rebuildChunks]
  | cons c t => simp [flushChunk, rebuildChunks]

theorem rebuild_append (a b : List Chunk) :
    rebuildChunks (a ++ b) = rebuildChunks a ++ rebuildChunks b := by
  induction a with
  | nil => simp [rebuildChunks]
  | cons c t ih =>
    cases c with
    | txt t0 => simp [rebuildChunks, ih]
    | tok i0 => simp [rebuildChunks, ih]

theorem findCloseAux_append :
    ∀ (l inner rest : List Char), findCloseAux l = some (inner, rest) →
      l = inner ++ ']' :: ']' :: rest := by
  intro l
  induction l with
  | nil => intro inner rest h; simp [findCloseAux] at h
  | cons c1 t ih =>
    cases t with
    | nil => intro inner rest h; simp [findCloseAux] at h
    | cons c2 rest0 =>
      intro inner rest h
      simp only [findCloseAux] at h
      split at h
      · next hcond =>
        simp only [Option.some.injEq, Prod.mk.injEq] at h
        simp only [Bool.and_eq_true, beq_iff_eq] at hcond
        rw [← h.1, ← h.2, hcond.1, hcond.2]
        rfl
      · split at h
        · exact absurd h (by simp)
        · rw [Option.map_eq_some'] at h
          obtain ⟨p, hp, hfp⟩ := h
          rw [Prod.mk.injEq] at hfp
          have hrec := ih p.1 p.2 (by rw [hp])
          rw [← hfp.1, ← hfp.2]
          simp only [List.cons_append, List.cons.injEq, true_and]
          exact hrec

theorem findCloseAux_length (l inner rest : List Char)
    (h : findCloseAux l = some (inner, rest)) :
    l.length = inner.length + 2 + rest.length := by
  rw [findCloseAux_append l inner rest h]
  simp [List.length_append]
  omega

/-- Two characters of lookahead expressed as list structure. -/
theorem take_two_eq (rest : List Char) (h : rest.take 2 = ['[', '[']) :
    ∃ rest0, rest = '[' :: '[' :: rest0 := by
  cases rest with
  | nil => simp at h
  | cons a t =>
    cases t with
    | nil => simp [List.take] at h
    | cons b t2 =>
      simp only [List.take, List.cons.injEq] at h
      exact ⟨t2, by rw [h.1, h.2.1]⟩

theorem rebuild_tokenizeF :
    ∀ (fuel : Nat) (acc l : List Char), l.length ≤ fuel →
      rebuildChunks (tokenizeF fuel acc l) = acc.reverse ++ l := by
  intro fuel
  induction fuel with
  | zero =>
    intro acc l h
    have hl : l = [] := List.eq_nil_of_length_eq_zero (Nat.le_zero.mp h)
    subst hl
    simp [tokenizeF, rebuild_flush]
  | succ n ih =>
    intro acc l h
    cases l with
    | nil => simp [tokenizeF, rebuild_flush]
    | cons c rest =>
      simp only [tokenizeF]
      split
      · next hcond =>
        simp only [Bool.and_eq_true, beq_iff_eq] at hcond
        obtain ⟨rest0, hr0⟩ := take_two_eq rest (by
          have := hcond.2
          simpa using this)
        split
        · next inner rest2 hfc =>
          subst hr0
          have hd : List.drop 2 ('[' :: '[' :: rest0) = rest0 := rfl
          rw [hd] at hfc
          have h1 := findCloseAux_length rest0 inner rest2 hfc
          have hlen2 : rest2.length ≤ n := by
            simp only [List.length_cons] at h
            omega
          have hap := findCloseAux_append rest0 inner rest2 hfc
          rw [rebuild_append, rebuild_flush]
          have hrec := ih [] rest2 hlen2
          simp only [rebuildChunks]
          rw [hrec]
          rw [hcond.1]
          simp [hap]
        · next hfc =>
          have hrec := ih (c :: acc) rest (by simpa using Nat.le_of_succ_le_succ (by simpa using h))
          rw [hrec]
          simp
      · next hcond =>
        have hrec := ih (c :: acc) rest (by simpa using Nat.le_of_succ_le_succ (by simpa using h))
        rw [hrec]
        simp

theorem string_mk_toList (s : String) : String.mk s.toList = s := by
  cases s
  rfl

theorem wf_flush (acc : List Char) : wfChunks (flushChunk acc) = true := by
  cases acc with
  | nil => rfl
  | cons c t =>
    simp only [flushChunk]
    rw [if_neg (by simp)]
    simp [wfChunks]

theorem wf_flush_tok (acc i : List Char) (m : List Chunk)
    (hm : wfChunks m = true) :
    wfChunks (flushChunk acc ++ Chunk.tok i :: m) = true := by
  cases acc with
  | nil => simpa [flushChunk, wfChunks] using hm
  | cons c t =>
    simp only [flushChunk]
    rw [if_neg (by simp)]
    simp [wfChunks, hm]

theorem wf_tokenizeF :
    ∀ (fuel : Nat) (acc l : List Char), wfChunks (tokenizeF fuel acc l) = true := by
  intro fuel
  induction fuel with
  | zero =>
    intro acc l
    cases l with
    | nil => exact wf_flush acc
    | cons c rest => exact wf_flush _
  | succ n ih =>
    intro acc l
    cases l with
    | nil => exact wf_flush acc
    | cons c rest =>
      simp only [tokenizeF]
      split
      · split
        · next inner rest2 hfc => exact wf_flush_tok acc inner _ (ih [] rest2)
        · exact ih (c :: acc) rest
      · exact ih (c :: acc) rest

theorem imagesOf_map (ctx : MediaEngineCtx) (chunks : List Chunk) :
    imagesOf (chunks.map (chunkToNode ctx)) =
      (innersOf chunks).map (fun i => resolveEmbed ctx (String.mk i)) := by
  induction chunks with
  | nil => rfl
  | cons c t ih =>
    cases c with
    | txt t0 =>
      simpa only [imagesOf, innersOf, chunkToNode, List.map_cons,
        List.filterMap_cons] using ih
    | tok i0 =>
      simp only [imagesOf, innersOf, chunkToNode, List.map_cons,
        List.filterMap_cons] at ih ⊢
      simp [ih]

/-- C6: on every text node, the media pass leaves the node alone when it
contains no `![[...]]` token; otherwise it replaces it by the ordered splice
of text runs and one image node per token in left-to-right order, such that
putting the tokens (with their fences) back in place of the images
reconstructs the original value exactly, text runs are non-empty and no two
text runs are adjacent. -/
theorem remarkObsidianMedia_splice (ctx : MediaEngineCtx) (s : String) :
    (hasEmbedTok s = false → processTextValue ctx s = none) ∧
    (hasEmbedTok s = true →
      processTextValue ctx s = some ((tokenize s).map (chunkToNode ctx))) ∧
    (∀ nodes, processTextValue ctx s = some nodes →
      nodes = (tokenize s).map (chunkToNode ctx) ∧
      String.mk (rebuildChunks (tokenize s)) = s ∧
      imagesOf nodes =
        (innersOf (tokenize s)).map (fun i => resolveEmbed ctx (String.mk i)) ∧
      wfChunks (tokenize s) = true) := by
  refine ⟨fun h => ?_, fun h => ?_, fun nodes hn => ?_⟩
  · simp [processTextValue, h]
  · simp [processTextValue, h]
  · have hmap : nodes = (tokenize s).map (chunkToNode ctx) := by
      by_cases h : hasEmbedTok s = true
      · rw [processTextValue, if_pos h] at hn
        exact (Option.some.injEq _ _ ▸ hn).symm
      · rw [processTextValue, if_neg h] at hn
        exact absurd hn (by simp)
    refine ⟨hmap, ?_, ?_, ?_⟩
    · have h0 := rebuild_tokenizeF s.toList.length [] s.toList (le_refl _)
      unfold tokenize
      rw [h0]
      simp only [List.reverse_nil, List.nil_append]
      exact string_mk_toList s
    · rw [hmap]
      exact imagesOf_map ctx (tokenize s)
    · exact wf_tokenizeF _ [] s.toList

/-- Witness for C6: a text value with two embeds and surrounding text — the
splice reconstructs the value and yields exactly two images in order. -/
theorem remarkObsidianMedia_splice_witness :
    processTextValue {} "before ![[a.png]] mid ![[b]] after" =
      some [MNode.text "before ",
            MNode.image (createDefaultImage "/placeholder/400/300" "a.png"),
            MNode.text " mid ",
            MNode.image (createDefaultImage "/placeholder/400/300" "b"),
            MNode.text " after"] ∧
    String.mk (rebuildChunks (tokenize "before ![[a.png]] mid ![[b]] after")) =
      "before ![[a.png]] mid ![[b]] after" ∧
    imagesOf [MNode.text "before ",
              MNode.image (createDefaultImage "/placeholder/400/300" "a.png"),
              MNode.text " mid ",
              MNode.image (createDefaultImage "/placeholder/400/300" "b"),
              MNode.text " after"] =
      (innersOf (tokenize "before ![[a.png]] mid ![[b]] after")).map
        (fun i => resolveEmbed {} (String.mk i)) ∧
    wfChunks (tokenize "before ![[a.png]] mid ![[b]] after") = true := by
  have h := (remarkObsidianMedia_splice {} "before ![[a.png]] mid ![[b]] after").2.2
    [MNode.text "before ",
     MNode.image (createDefaultImage "/placeholder/400/300" "a.png"),
     MNode.text " mid ",
     MNode.image (createDefaultImage "/placeholder/400/300" "b"),
     MNode.text " after"] (by decide)
  exact ⟨by decide, h.2.1, h.2.2.1, h.2.2.2⟩

theorem assocGet_set {α : Type} (m : List (String × α)) (k : String) (v : α) :
    assocGet (assocSet m k v) k = some v := by
  induction m with
  | nil => simp [assocGet, assocSet, List.lookup]
  | cons hd t ih =>
    obtain ⟨k0, v0⟩ := hd
    by_cases hk : k0 = k
    · subst hk
      simp [assocSet, assocGet, List.lookup]
    · simp only [assocSet, beq_iff_eq, hk, if_false]
      have hkk : (k == k0) = false := by
        simp only [beq_eq_false_iff_ne, ne_eq]
        exact fun h => hk h.symm
      simp only [assocGet, List.lookup, hkk] at ih ⊢
      exact ih

/-- C9 (amended): the optimization error is caught once per media file,
around the whole variant-generation loop (not per attempt): whenever the
optimization block of `processMediaFile` raises — at the metadata read or at
any encode attempt — the returned catalog entry still exists, its "original"
bucket is the single fallback entry referencing the untouched source file
(`outputPath` equal to the source path, the source byte size, the source
extension as format), any buckets already generated before the failure are
retained, and the `processMedia` loop still yields one catalog entry per
file. -/
theorem processMediaFile_error_fallback (ctx : MediaCtx)
    (imageSizes : List SizeSpec) (imageFormats : List FormatSpec)
    (metaO : Except String ImgMeta)
    (encode : String → String → Except String EncodeMeta)
    (himg : isImageExt ctx.fileExt = true)
    (hfail : optimizationFails ctx imageSizes imageFormats metaO encode = true) :
    (∃ md : MediaMeta,
      assocGet (processMediaFileModel ctx true imageSizes imageFormats
          metaO encode).sizes "original" = some [fallbackOriginal ctx md] ∧
      (fallbackOriginal ctx md).outputPath = ctx.filePath ∧
      (fallbackOriginal ctx md).size = ctx.stats ∧
      (fallbackOriginal ctx md).format = strDrop ctx.fileExt 1) ∧
    (∀ (files : List MediaCtx) (optimizeImages : Bool)
        (metaF : MediaCtx → Except String ImgMeta)
        (encodeF : MediaCtx → String → String → Except String EncodeMeta),
      (processMediaModel files optimizeImages imageSizes imageFormats
          metaF encodeF).length = files.length) := by
  constructor
  · cases metaO with
    | error e =>
      refine ⟨{ width := none, height := none, format := none,
                size := some ctx.stats }, ?_, rfl, rfl, rfl⟩
      simp only [processMediaFileModel, himg, Bool.true_and, if_true]
      exact assocGet_set [] "original" _
    | ok m =>
      simp only [optimizationFails] at hfail
      cases hr : (runSizesCode ctx m encode imageFormats imageSizes []).2 with
      | none => rw [hr] at hfail; simp at hfail
      | some e =>
        refine ⟨{ width := m.width, height := m.height, format := m.format,
                  size := some ctx.stats }, ?_, rfl, rfl, rfl⟩
        simp only [processMediaFileModel, himg, Bool.true_and, if_true, hr]
        exact assocGet_set _ "original" _
  · intro files optimizeImages metaF encodeF
    simp [processMediaModel]

/-- Witness for C9: a png whose first (sm/jpeg) encode attempt fails — the
entry still exists with the untouched-source original bucket, and a two-file
run still produces two entries. -/
theorem processMediaFile_error_fallback_witness :
    (∃ md : MediaMeta,
      assocGet (processMediaFileModel
          { filePath := "/v/imgs/a.png", relativePath := "imgs/a.png",
            fileName := "a.png", fileExt := ".png", mediaOutputFolder := "/o",
            mediaPathPrefix := "/media", domain := none, stats := 10 }
          true
          [{ width := some 640, height := none, suffix := "sm" },
           { width := some 1024, height := none, suffix := "md" }]
          [{ format := "jpeg" }]
          (Except.ok { width := some 100, height := some 50, format := some "png" })
          (fun suf _ => if suf == "sm" then Except.error "boom"
            else Except.ok { width := some 64, height := some 32, size := 5 })).sizes
        "original" =
        some [fallbackOriginal
          { filePath := "/v/imgs/a.png", relativePath := "imgs/a.png",
            fileName := "a.png", fileExt := ".png", mediaOutputFolder := "/o",
            mediaPathPrefix := "/media", domain := none, stats := 10 } md] ∧
      (fallbackOriginal
          { filePath := "/v/imgs/a.png", relativePath := "imgs/a.png",
            fileName := "a.png", fileExt := ".png", mediaOutputFolder := "/o",
            mediaPathPrefix := "/media", domain := none, stats := 10 } md).outputPath =
        "/v/imgs/a.png" ∧
      (fallbackOriginal
          { filePath := "/v/imgs/a.png", relativePath := "imgs/a.png",
            fileName := "a.png", fileExt := ".png", mediaOutputFolder := "/o",
            mediaPathPrefix := "/media", domain := none, stats := 10 } md).size = 10 ∧
      (fallbackOriginal
          { filePath := "/v/imgs/a.png", relativePath := "imgs/a.png",
            fileName := "a.png", fileExt := ".png", mediaOutputFolder := "/o",
            mediaPathPrefix := "/media", domain := none, stats := 10 } md).format =
        strDrop ".png" 1) := by
  exact (processMediaFile_error_fallback
    { filePath := "/v/imgs/a.png", relativePath := "imgs/a.png",
      fileName := "a.png", fileExt := ".png", mediaOutputFolder := "/o",
      mediaPathPrefix := "/media", domain := none, stats := 10 }
    [{ width := some 640, height := none, suffix := "sm" },
     { width := some 1024, height := none, suffix := "md" }]
    [{ format := "jpeg" }]
    (Except.ok { width := some 100, height := some 50, format := some "png" })
    (fun suf _ => if suf == "sm" then Except.error "boom"
      else Except.ok { width := some 64, height := some 32, size := 5 })
    (by decide) (by decide)).1

/-- Counterexample to C9 as stated: the error is not caught per
variant-generation attempt.  With sizes [sm, md] and a single jpeg format,
an encode failure on the sm attempt aborts the whole loop, so the code's
entry has no "md" bucket at all — whereas under the claim's per-attempt
catching the md attempt would still run and populate its bucket. -/
theorem processMediaFile_per_attempt_counterexample :
    assocGet (processMediaFileModel
        { filePath := "/v/imgs/a.png", relativePath := "imgs/a.png",
          fileName := "a.png", fileExt := ".png", mediaOutputFolder := "/o",
          mediaPathPrefix := "/media", domain := none, stats := 10 }
        true
        [{ width := some 640, height := none, suffix := "sm" },
         { width := some 1024, height := none, suffix := "md" }]
        [{ format := "jpeg" }]
        (Except.ok { width := some 100, height := some 50, format := some "png" })
        (fun suf _ => if suf == "sm" then Except.error "boom"
          else Except.ok { width := some 64, height := some 32, size := 5 })).sizes
      "md" = none ∧
    assocGet (processMediaFilePerAttemptClaim
        { filePath := "/v/imgs/a.png", relativePath := "imgs/a.png",
          fileName := "a.png", fileExt := ".png", mediaOutputFolder := "/o",
          mediaPathPrefix := "/media", domain := none, stats := 10 }
        true
        [{ width := some 640, height := none, suffix := "sm" },
         { width := some 1024, height := none, suffix := "md" }]
        [{ format := "jpeg" }]
        (Except.ok { width := some 100, height := some 50, format := some "png" })
        (fun suf _ => if suf == "sm" then Except.error "boom"
          else Except.ok { width := some 64, height := some 32, size := 5 })).sizes
      "md" ≠ none := by
  decide

/-- C10: the media-attachment tail of `processFolder` mutates only the first
returned page — which gains the media catalog, and the path map as well when
it is non-empty — leaves every other page untouched (still carrying exactly
the declared FileData fields, as every page built by the processing loop
does), and attaches nothing when `includeMediaData` is false or either list
is empty. -/
theorem processFolder_attach_frame (inc : Bool)
    (mediaData : List MediaFileData) (pm : List (String × String))
    (pages : List FileData)
    (hnone : ∀ p ∈ pages, p.mediaDataProp = none ∧ p.mediaPathMapProp = none) :
    ((processFolderAttachMediaData inc mediaData pm pages).length = pages.length) ∧
    (∀ i, i ≠ 0 →
      (processFolderAttachMediaData inc mediaData pm pages)[i]? = pages[i]?) ∧
    (inc = true → mediaData ≠ [] → ∀ p0 rest, pages = p0 :: rest →
      processFolderAttachMediaData inc mediaData pm pages =
        { p0 with mediaDataProp := some mediaData,
                  mediaPathMapProp :=
                    if pm.isEmpty then p0.mediaPathMapProp else some pm } :: rest) ∧
    ((inc = false ∨ pages = [] ∨ mediaData = []) →
      processFolderAttachMediaData inc mediaData pm pages = pages) ∧
    (∀ i p, i ≠ 0 →
      (processFolderAttachMediaData inc mediaData pm pages)[i]? = some p →
      p.mediaDataProp = none ∧ p.mediaPathMapProp = none) ∧
    (∀ fn sl fm fp pl ht toc op,
      (mkFileData fn sl fm fp pl ht toc op).mediaDataProp = none ∧
      (mkFileData fn sl fm fp pl ht toc op).mediaPathMapProp = none) := by
  by_cases hc : (inc && !pages.isEmpty && !mediaData.isEmpty) = true
  · cases pages with
    | nil => simp at hc
    | cons p0 rest =>
      have hres : processFolderAttachMediaData inc mediaData pm (p0 :: rest) =
          { p0 with mediaDataProp := some mediaData,
                    mediaPathMapProp :=
                      if pm.isEmpty then p0.mediaPathMapProp else some pm } :: rest := by
        simp only [processFolderAttachMediaData, hc, if_true]
        by_cases hpm : pm.isEmpty
        · simp only [hpm, Bool.not_true, Bool.false_eq_true, if_false, if_true]
        · simp only [Bool.not_eq_true] at hpm
          simp only [hpm, Bool.not_false, if_true, Bool.false_eq_true, if_false]
      refine ⟨by rw [hres]; rfl, fun i hi => ?_, fun _ _ p1 r1 hp => ?_, fun hcontra => ?_,
              fun i p hi hp => ?_, fun fn sl fm fp pl ht toc op => ⟨rfl, rfl⟩⟩
      · cases i with
        | zero => exact absurd rfl hi
        | succ j => rw [hres]; simp
      · rw [hp] at hres ⊢
        injection hp with hph hpt
        rw [hres, hph, hpt]
      · simp only [Bool.and_eq_true, Bool.not_eq_true', List.isEmpty_eq_false] at hc
        rcases hcontra with h | h | h
        · rw [h] at hc
          exact absurd hc.1.1 (by simp)
        · exact absurd h (by simp)
        · exact absurd h hc.2
      · cases i with
        | zero => exact absurd rfl hi
        | succ j =>
          rw [hres] at hp
          simp only [List.getElem?_cons_succ] at hp
          exact hnone p (by
            have := List.getElem?_mem hp
            exact List.mem_cons_of_mem p0 this)
  · have hres : processFolderAttachMediaData inc mediaData pm pages = pages := by
      simp only [processFolderAttachMediaData, hc, if_false, Bool.false_eq_true]
    refine ⟨by rw [hres], fun i _ => by rw [hres], fun hinc hmd p0 rest hp => ?_,
            fun _ => hres, fun i p hi hp => ?_, fun fn sl fm fp pl ht toc op => ⟨rfl, rfl⟩⟩
    · exfalso
      apply hc
      rw [hinc, hp]
      simp only [List.isEmpty_cons, Bool.not_false, Bool.true_and, Bool.and_eq_true,
        Bool.not_eq_true', List.isEmpty_eq_false]
      exact hmd
    · rw [hres] at hp
      exact hnone p (List.getElem?_mem hp)

/-- Witness for C10 on a two-page run: the first page gains both properties,
the second is returned untouched, and with `includeMediaData = false` nothing
changes. -/
theorem processFolder_attach_frame_witness :
    processFolderAttachMediaData true
      [{ originalPath := "imgs/a.png", fileName := "a.png", fileExt := "png",
         mimeType := "image/png", sizes := [],
         metadata := { width := none, height := none, format := none, size := none } }]
      [("imgs/a.png", "/media/imgs/a.png")]
      [mkFileData "a" "a" "fm" "p" "pl" "<p>" [] "a.md",
       mkFileData "b" "b" "fm" "p" "pl" "<p>" [] "b.md"] =
      [{ mkFileData "a" "a" "fm" "p" "pl" "<p>" [] "a.md" with
          mediaDataProp := some
            [{ originalPath := "imgs/a.png", fileName := "a.png", fileExt := "png",
               mimeType := "image/png", sizes := [],
               metadata := { width := none, height := none, format := none,
                             size := none } }],
          mediaPathMapProp := some [("imgs/a.png", "/media/imgs/a.png")] },
       mkFileData "b" "b" "fm" "p" "pl" "<p>" [] "b.md"] ∧
    (processFolderAttachMediaData true
      [{ originalPath := "imgs/a.png", fileName := "a.png", fileExt := "png",
         mimeType := "image/png", sizes := [],
         metadata := { width := none, height := none, format := none, size := none } }]
      [("imgs/a.png", "/media/imgs/a.png")]
      [mkFileData "a" "a" "fm" "p" "pl" "<p>" [] "a.md",
       mkFileData "b" "b" "fm" "p" "pl" "<p>" [] "b.md"])[1]? =
      some (mkFileData "b" "b" "fm" "p" "pl" "<p>" [] "b.md") ∧
    processFolderAttachMediaData false
      [{ originalPath := "imgs/a.png", fileName := "a.png", fileExt := "png",
         mimeType := "image/png", sizes := [],
         metadata := { width := none, height := none, format := none, size := none } }]
      [("imgs/a.png", "/media/imgs/a.png")]
      [mkFileData "a" "a" "fm" "p" "pl" "<p>" [] "a.md",
       mkFileData "b" "b" "fm" "p" "pl" "<p>" [] "b.md"] =
      [mkFileData "a" "a" "fm" "p" "pl" "<p>" [] "a.md",
       mkFileData "b" "b" "fm" "p" "pl" "<p>" [] "b.md"] := by
  have h := processFolder_attach_frame true
    [{ originalPath := "imgs/a.png", fileName := "a.png", fileExt := "png",
       mimeType := "image/png", sizes := [],
       metadata := { width := none, height := none, format := none, size := none } }]
    [("imgs/a.png", "/media/imgs/a.png")]
    [mkFileData "a" "a" "fm" "p" "pl" "<p>" [] "a.md",
     mkFileData "b" "b" "fm" "p" "pl" "<p>" [] "b.md"] (by decide)
  have h2 := processFolder_attach_frame false
    [{ originalPath := "imgs/a.png", fileName := "a.png", fileExt := "png",
       mimeType := "image/png", sizes := [],
       metadata := { width := none, height := none, format := none, size := none } }]
    [("imgs/a.png", "/media/imgs/a.png")]
    [mkFileData "a" "a" "fm" "p" "pl" "<p>" [] "a.md",
     mkFileData "b" "b" "fm" "p" "pl" "<p>" [] "b.md"] (by decide)
  refine ⟨?_, ?_, ?_⟩
  · exact (h.2.2.1 rfl (by decide) (mkFileData "a" "a" "fm" "p" "pl" "<p>" [] "a.md")
      [mkFileData "b" "b" "fm" "p" "pl" "<p>" [] "b.md"] rfl).trans (by decide)
  · exact (h.2.1 1 (by decide)).trans (by decide)
  · exact h2.2.2.2.1 (Or.inl rfl)

end ObsidianParser
